import Mathlib

/-!
# Verification of the singularity multi-backend pull-and-cache engine

Shallow embedding of the image-acquisition layer: the three backend pull
operations visible in the reviewed sources —

* `Shub.Pull`   (hub backend, `part_000`),
* `Oras.Pull`   (artifact-registry backend, third unit of `plugin_compile_linux.go`),
* `OciPull`     (OCI/Docker backend, second unit of `plugin_compile_linux.go`),

together with the shared destination-opening helper `openOutputImage` and the
final cache-to-destination copy (`io.Copy`).

The filesystem is modelled as a map from paths to optional byte contents.
External collaborators (remote resolution, payload download, the OCI build
pipeline, destination-open success, mid-copy I/O errors) are oracles carried
in a per-backend environment structure, so one Lean function covers every
possible run of the Go function.  Each pull returns its Go result (success or
the error site), the final filesystem, and a trace of the externally visible
operations it performed, in program order.

The content-addressable cache package (`internal/pkg/client/cache`), the
logical-name derivation `uri.GetName` and the `interruptCleanup` helper are
repository code that is not among the reviewed sources; they are modelled
from the spec where a definition is needed (doc comments say so) and
abstracted as oracle functions where only their value matters.
-/

namespace Singularity

/-- File paths, as the Go code handles them: plain strings. -/
abbrev Path := String

/-- File contents: a list of bytes. -/
abbrev Bytes := List Nat

/-- The filesystem: each path maps to the content of the file there, or
`none` when no file exists at that path. -/
def FS : Type := Path → Option Bytes

/-- Write (create or replace) the file at `p`. -/
def FS.set (fs : FS) (p : Path) (b : Bytes) : FS :=
  fun q => if q = p then some b else fs q

/-- `os.Remove`: delete the file at `p`. -/
def FS.erase (fs : FS) (p : Path) : FS :=
  fun q => if q = p then none else fs q

/-- The distinguished error of the cache existence check
(`cache.ErrBadChecksum`). -/
inductive CacheErr where
  | badChecksum
deriving DecidableEq

/-- Error sites of a pull, one per `return fmt.Errorf(...)`/`return err`
site in the Go code. -/
inductive PullErr where
  | parseFailed
  | manifestFailed
  | resolveFailed
  | existsCheckFailed
  | removeFailed
  | downloadFailed
  | buildFailed
  | hashMismatch
  | destOpenFailed
  | srcOpenFailed
  | copyFailed
deriving DecidableEq

/-- Externally visible operations of a pull, recorded in program order. -/
inductive Event where
  /-- remote metadata interaction: `shub.GetManifest`, `oras.ImageSHA`,
  `ociclient.ImageSHA`. -/
  | resolve
  /-- cache existence check (`ShubImageExists` / `OrasImageExists` /
  `OciTempExists`) consulting the given cache path. -/
  | cacheCheck (p : Path)
  /-- `go interruptCleanup(p)`: the interrupt guard is armed with path `p`. -/
  | armGuard (p : Path)
  /-- `shub.DownloadImage(manifest, dest, from, force, noHttps)`. -/
  | shubDownload (dest : Path) (force : Bool)
  /-- `oras.DownloadImage(dest, from, auth)`. -/
  | orasDownload (dest : Path)
  /-- `convertDockerToSIF(..., dest, ...)`: the OCI build pipeline. -/
  | buildToSIF (dest : Path)
  /-- post-fetch re-hash `oras.ImageHash(p)`. -/
  | rehash (p : Path)
  /-- `os.Remove(p)`. -/
  | removeFile (p : Path)
  /-- `openOutputImage(p)` succeeded (destination opened for writing). -/
  | openDest (p : Path)
  /-- `os.Open(p)` succeeded (cache file opened for reading). -/
  | openSrc (p : Path)
  /-- `Close()` of the file at `p`. -/
  | closeFile (p : Path)
  /-- `io.Copy` streaming `src` into `dst`. -/
  | copyTo (src dst : Path)
deriving DecidableEq

/-- Whether an event is a full-payload fetch (network download or build). -/
def Event.isFetch : Event → Bool
  | .shubDownload _ _ => true
  | .orasDownload _ => true
  | .buildToSIF _ => true
  | _ => false

/-! ## The cache handle

`cache.Handle` itself lives in `internal/pkg/client/cache`, which is not among
the reviewed sources; the parts the pull code relies on are modelled from the
spec. -/

/-- `cache.Handle`: process-scoped cache state — the cache root path and the
disabled flag (spec §3, CacheHandle). -/
structure Handle where
  disabled : Bool
  root : Path

/-- `cache.Handle.IsDisabled`. -/
def Handle.IsDisabled (c : Handle) : Bool := c.disabled

/-- Modelled from the spec: cache path derivation — "paths are a pure
function of (namespace, identifier, logical name)" (spec §6); the cache
package is not among the reviewed sources.  Does not touch the filesystem. -/
def cachePath (c : Handle) (ns sum name : String) : Path :=
  c.root ++ "/" ++ ns ++ "/" ++ sum ++ "/" ++ name

/-- `cache.Handle.ShubImage`: path of a hub-backend cache entry. -/
def Handle.ShubImage (c : Handle) (sum name : String) : Path :=
  cachePath c "shub" sum name

/-- `cache.Handle.OrasImage`: path of an artifact-registry cache entry. -/
def Handle.OrasImage (c : Handle) (sum name : String) : Path :=
  cachePath c "oras" sum name

/-- `cache.Handle.OciTempImage`: path of an OCI-backend cache entry. -/
def Handle.OciTempImage (c : Handle) (sum name : String) : Path :=
  cachePath c "oci-tmp" sum name

/-- Modelled from the spec: `ContentCache.Exists` — "verifies presence AND
integrity.  Must distinguish three outcomes: present-and-valid (`true, nil`),
absent (`false, nil`), present-but-corrupt (`false, ErrBadChecksum`) — a
calculated hash mismatch between stored bytes and the identifier" (spec
§4.1); the cache package is not among the reviewed sources.  `hash` is the
backend's hash function. -/
def cacheExists (hash : Bytes → String) (fs : FS) (p : Path) (sum : String) :
    Bool × Option CacheErr :=
  match fs p with
  | none => (false, none)
  | some c => if hash c = sum then (true, none) else (false, some CacheErr.badChecksum)

/-- `cache.Handle.ShubImageExists`. -/
def Handle.ShubImageExists (c : Handle) (hash : Bytes → String) (fs : FS)
    (sum name : String) : Bool × Option CacheErr :=
  cacheExists hash fs (c.ShubImage sum name) sum

/-- `cache.Handle.OrasImageExists`. -/
def Handle.OrasImageExists (c : Handle) (hash : Bytes → String) (fs : FS)
    (sum name : String) : Bool × Option CacheErr :=
  cacheExists hash fs (c.OrasImage sum name) sum

/-- `cache.Handle.OciTempExists`. -/
def Handle.OciTempExists (c : Handle) (hash : Bytes → String) (fs : FS)
    (sum name : String) : Bool × Option CacheErr :=
  cacheExists hash fs (c.OciTempImage sum name) sum

/-- Modelled from the spec: `interruptCleanup` — "upon process interruption
(termination signal), deletes the in-progress cache path" (spec §4.3); its
definition is not among the reviewed sources.  This is the effect of the
guard's cleanup on the filesystem when a signal arrives: the path the guard
was armed with is erased. -/
def interruptCleanup (p : Path) (fs : FS) : FS := fs.erase p

/-! ## The destination open and the streaming copy -/

/-- Flags of one `os.OpenFile` call. -/
structure OpenFlags where
  create : Bool
  trunc : Bool
  wronly : Bool
  perm : Nat

/-- `openOutputImage` opens the destination with
`os.OpenFile(path, os.O_CREATE|os.O_TRUNC|os.O_WRONLY, 0755)`
("Perms are 755 *prior* to umask in order to allow image to be executed
with its leading shebang like a script"). -/
def openOutputImageFlags : OpenFlags := ⟨true, true, true, 0o755⟩

/-- Effect of a successful `os.OpenFile` with flags `fl` on the filesystem:
with `O_TRUNC` the file at `p` becomes empty; otherwise existing content is
kept and `O_CREATE` creates an empty file when absent. -/
def applyOpen (fl : OpenFlags) (p : Path) (fs : FS) : FS :=
  fun q =>
    if q = p then
      if fl.trunc then some []
      else
        match fs p with
        | some c => some c
        | none => if fl.create then some [] else none
    else fs q

/-- `io.Copy`'s internal buffer size (32 * 1024 bytes). -/
def bufSize : Nat := 32768

/-- One run of `io.Copy`'s read/write loop, fuelled for structural
recursion: each iteration reads at most `bufSize` bytes from the source and
appends them to the destination, until the source is exhausted.  `ioCopy`
below supplies enough fuel for the whole source. -/
def ioCopyGo : Nat → Bytes → Bytes
  | _, [] => []
  | 0, src => src
  | fuel + 1, src => src.take bufSize ++ ioCopyGo fuel (src.drop bufSize)

/-- `io.Copy`: stream the source content chunk by chunk. -/
def ioCopy (src : Bytes) : Bytes := ioCopyGo src.length src

/-- The sizes of the successive reads `io.Copy` performs on a source with
the given content (same fuelled loop as `ioCopyGo`). -/
def ioCopyReadsGo : Nat → Bytes → List Nat
  | _, [] => []
  | 0, _ => []
  | fuel + 1, src => min bufSize src.length :: ioCopyReadsGo fuel (src.drop bufSize)

/-- The sizes of the successive reads of one `io.Copy` run. -/
def ioCopyReads (src : Bytes) : List Nat := ioCopyReadsGo src.length src

/-- The shared final stage of every cache-mode pull (`Shub.Pull` 64–80,
`OciPull` 429–445, `Oras.Pull` 552–568): open the destination with
`openOutputImage`, open the cache file, `io.Copy` cache → destination, with
both files closed by `defer` on every exit path.

Oracles: `destOpenOk` is whether `os.OpenFile` succeeds; `copyFail = some k`
means `io.Copy` hits an I/O error after `k` complete chunks were written
(`none` means the copy runs to completion). -/
def copyStep (destOpenOk : Bool) (copyFail : Option Nat) (srcPath dstPath : Path)
    (fs : FS) : Except PullErr Unit × FS × List Event :=
  if destOpenOk then
    let fs1 := applyOpen openOutputImageFlags dstPath fs
    match fs1 srcPath with
    | none => (Except.error PullErr.srcOpenFailed, fs1,
        [Event.openDest dstPath, Event.closeFile dstPath])
    | some content =>
      match copyFail with
      | none =>
        (Except.ok (), fs1.set dstPath (ioCopy content),
          [Event.openDest dstPath, Event.openSrc srcPath, Event.copyTo srcPath dstPath,
           Event.closeFile srcPath, Event.closeFile dstPath])
      | some k =>
        (Except.error PullErr.copyFailed, fs1.set dstPath (content.take (k * bufSize)),
          [Event.openDest dstPath, Event.openSrc srcPath, Event.copyTo srcPath dstPath,
           Event.closeFile srcPath, Event.closeFile dstPath])
  else (Except.error PullErr.destOpenFailed, fs, [])

/-- Result of one pull: the Go return value, the final filesystem, and the
trace of externally visible operations in program order. -/
structure PullOut where
  result : Except PullErr Unit
  fs : FS
  trace : List Event

instance : DecidableEq (Except PullErr Unit) := fun a b =>
  match a, b with
  | Except.ok (), Except.ok () => isTrue rfl
  | Except.error x, Except.error y =>
    if h : x = y then isTrue (by rw [h]) else isFalse (by intro hc; cases hc; exact h rfl)
  | Except.ok _, Except.error _ => isFalse (by intro hc; cases hc)
  | Except.error _, Except.ok _ => isFalse (by intro hc; cases hc)

/-! ## Hub backend: `Shub.Pull` (`part_000`) -/

/-- The piece of the hub manifest the pull uses: its commit field. -/
structure Manifest where
  commit : String

/-- Oracles for one `Shub.Pull` run: the backend hash function, the
logical-name derivation `uri.GetName` (not among the reviewed sources,
abstracted), outcome of `shub.ShubParseReference`, of `shub.GetManifest`,
the bytes `shub.DownloadImage` would write on success (`none` = download
error), and the copy-stage oracles. -/
structure ShubEnv where
  hash : Bytes → String
  getName : String → String
  parseOk : Bool
  manifest : Option Manifest
  downloadContent : Option Bytes
  destOpenOk : Bool
  copyFail : Option Nat

/-- The `Shub` client: cache handle and the `noHttps` flag. -/
structure Shub where
  cache : Handle
  noHttps : Bool

/-- `Shub.Pull(ctx, from, to)`, translated line by line from `part_000`:
parse the reference; fetch the manifest; derive the cache key from the
manifest's commit and the logical image name; in disabled mode download
straight to `to` (force `true`); otherwise check the cache (any check error
fails the pull), download into the cache path under the interrupt guard when
absent, and finish by copying the cache file to the destination. -/
def Shub.Pull (s : Shub) (e : ShubEnv) (fromURI dest : Path) (fs : FS) : PullOut :=
  if e.parseOk = false then ⟨Except.error PullErr.parseFailed, fs, []⟩
  else
    match e.manifest with
    | none => ⟨Except.error PullErr.manifestFailed, fs, [Event.resolve]⟩
    | some manifest =>
      let imageName := e.getName fromURI
      let imagePath := s.cache.ShubImage manifest.commit imageName
      if s.cache.IsDisabled then
        match e.downloadContent with
        | none => ⟨Except.error PullErr.downloadFailed, fs,
            [Event.resolve, Event.shubDownload dest true]⟩
        | some b => ⟨Except.ok (), fs.set dest b,
            [Event.resolve, Event.shubDownload dest true]⟩
      else
        match s.cache.ShubImageExists e.hash fs manifest.commit imageName with
        | (_, some _) => ⟨Except.error PullErr.existsCheckFailed, fs,
            [Event.resolve, Event.cacheCheck imagePath]⟩
        | (ex, none) =>
          if ex = false then
            match e.downloadContent with
            | none => ⟨Except.error PullErr.downloadFailed, fs,
                [Event.resolve, Event.cacheCheck imagePath, Event.armGuard imagePath,
                 Event.shubDownload imagePath true]⟩
            | some b =>
              let fs1 := fs.set imagePath b
              let out := copyStep e.destOpenOk e.copyFail imagePath dest fs1
              ⟨out.1, out.2.1,
                [Event.resolve, Event.cacheCheck imagePath, Event.armGuard imagePath,
                 Event.shubDownload imagePath true] ++ out.2.2⟩
          else
            let out := copyStep e.destOpenOk e.copyFail imagePath dest fs
            ⟨out.1, out.2.1, [Event.resolve, Event.cacheCheck imagePath] ++ out.2.2⟩

/-! ## Artifact-registry backend: `Oras.Pull` -/

/-- Oracles for one `Oras.Pull` run: the backend hash function, the
logical-name derivation, the outcome of `oras.ImageSHA` (`none` = resolution
error), the bytes `oras.DownloadImage` would write on success, whether the
`os.Remove` of a corrupt entry succeeds, and the copy-stage oracles. -/
structure OrasEnv where
  hash : Bytes → String
  getName : String → String
  sha : Option String
  downloadContent : Option Bytes
  removeOk : Bool
  destOpenOk : Bool
  copyFail : Option Nat

/-- The `Oras` client (its credentials are absorbed into the oracles). -/
structure Oras where
  cache : Handle

/-- The tail of `Oras.Pull` after the existence check (lines 535–572): when
no valid entry is present, arm the interrupt guard with the cache path,
download into it, re-hash the written file against the resolved digest and
fail on mismatch (the file is left in place); then — or directly on a cache
hit — copy the cache file to the destination. -/
def orasPullTail (e : OrasEnv) (hasEntry : Bool) (cacheImagePath dest : Path)
    (sum : String) (fs : FS) (tr : List Event) : PullOut :=
  if hasEntry = false then
    match e.downloadContent with
    | none => ⟨Except.error PullErr.downloadFailed, fs,
        tr ++ [Event.armGuard cacheImagePath, Event.orasDownload cacheImagePath]⟩
    | some b =>
      let fs1 := fs.set cacheImagePath b
      let tr1 := tr ++ [Event.armGuard cacheImagePath, Event.orasDownload cacheImagePath,
        Event.rehash cacheImagePath]
      if e.hash b = sum then
        let out := copyStep e.destOpenOk e.copyFail cacheImagePath dest fs1
        ⟨out.1, out.2.1, tr1 ++ out.2.2⟩
      else ⟨Except.error PullErr.hashMismatch, fs1, tr1⟩
  else
    let out := copyStep e.destOpenOk e.copyFail cacheImagePath dest fs
    ⟨out.1, out.2.1, tr ++ out.2.2⟩

/-- `Oras.Pull(ctx, from, to)`, translated from the third unit of
`plugin_compile_linux.go`: resolve the digest with `oras.ImageSHA`; derive
the logical name from `"oras:" + from`; check the cache — on
`ErrBadChecksum` warn, `os.Remove` the corrupt entry (a remove failure fails
the pull) and continue as a miss; on any other check error fail; then run
the fetch-and-copy tail.  Note there is no `IsDisabled` branch anywhere in
this function. -/
def Oras.Pull (o : Oras) (e : OrasEnv) (fromURI dest : Path) (fs : FS) : PullOut :=
  match e.sha with
  | none => ⟨Except.error PullErr.resolveFailed, fs, [Event.resolve]⟩
  | some sum =>
    let imageName := e.getName ("oras:" ++ fromURI)
    let cacheImagePath := o.cache.OrasImage sum imageName
    match o.cache.OrasImageExists e.hash fs sum imageName with
    | (ex, some CacheErr.badChecksum) =>
      if e.removeOk then
        orasPullTail e ex cacheImagePath dest sum (fs.erase cacheImagePath)
          [Event.resolve, Event.cacheCheck cacheImagePath, Event.removeFile cacheImagePath]
      else ⟨Except.error PullErr.removeFailed, fs,
        [Event.resolve, Event.cacheCheck cacheImagePath, Event.removeFile cacheImagePath]⟩
    | (ex, none) =>
      orasPullTail e ex cacheImagePath dest sum fs
        [Event.resolve, Event.cacheCheck cacheImagePath]

/-! ## OCI/Docker backend: `OciPull` -/

/-- Oracles for one `OciPull` run: the backend hash function, the
logical-name derivation, the outcome of `ociclient.ImageSHA`, the bytes the
`convertDockerToSIF` build pipeline would produce on success (`none` = build
error), and the copy-stage oracles. -/
structure OciEnv where
  hash : Bytes → String
  getName : String → String
  sha : Option String
  buildContent : Option Bytes
  destOpenOk : Bool
  copyFail : Option Nat

/-- `OciPull(imgCache, name, imageURI, ...)`, translated from the second
unit of `plugin_compile_linux.go`: resolve the image digest (before and
regardless of the disabled check); in disabled mode build straight to
`name`; otherwise check the cache (any check error fails the pull), and when
absent arm the interrupt guard — with `imgName`, exactly as the source does
on line 421 — build into the cache path, then copy the cache file to the
destination. -/
def OciPull (e : OciEnv) (imgCache : Handle) (name imageURI : Path) (fs : FS) : PullOut :=
  match e.sha with
  | none => ⟨Except.error PullErr.resolveFailed, fs, [Event.resolve]⟩
  | some sum =>
    if imgCache.IsDisabled then
      match e.buildContent with
      | none => ⟨Except.error PullErr.buildFailed, fs,
          [Event.resolve, Event.buildToSIF name]⟩
      | some b => ⟨Except.ok (), fs.set name b,
          [Event.resolve, Event.buildToSIF name]⟩
    else
      let imgName := e.getName imageURI
      let cachedImgPath := imgCache.OciTempImage sum imgName
      match imgCache.OciTempExists e.hash fs sum imgName with
      | (_, some _) => ⟨Except.error PullErr.existsCheckFailed, fs,
          [Event.resolve, Event.cacheCheck cachedImgPath]⟩
      | (ex, none) =>
        if ex = false then
          match e.buildContent with
          | none => ⟨Except.error PullErr.buildFailed, fs,
              [Event.resolve, Event.cacheCheck cachedImgPath, Event.armGuard imgName,
               Event.buildToSIF cachedImgPath]⟩
          | some b =>
            let fs1 := fs.set cachedImgPath b
            let out := copyStep e.destOpenOk e.copyFail cachedImgPath name fs1
            ⟨out.1, out.2.1,
              [Event.resolve, Event.cacheCheck cachedImgPath, Event.armGuard imgName,
               Event.buildToSIF cachedImgPath] ++ out.2.2⟩
        else
          let out := copyStep e.destOpenOk e.copyFail cachedImgPath name fs
          ⟨out.1, out.2.1, [Event.resolve, Event.cacheCheck cachedImgPath] ++ out.2.2⟩


/-! ## Helper lemmas -/

theorem bufSize_pos : 0 < bufSize := by decide

theorem ioCopyGo_eq (fuel : Nat) (src : Bytes) (h : src.length ≤ fuel) :
    ioCopyGo fuel src = src := by
  induction fuel generalizing src with
  | zero =>
    cases src with
    | nil => rfl
    | cons a as => simp at h
  | succ n ih =>
    cases src with
    | nil => rfl
    | cons a as =>
      simp only [ioCopyGo]
      rw [ih ((a :: as).drop bufSize)
        (by
          have hb : bufSize = 32768 := rfl
          simp only [List.length_drop, List.length_cons] at *
          omega)]
      exact List.take_append_drop _ _

/-- `io.Copy` transfers the source content exactly. -/
theorem ioCopy_eq (src : Bytes) : ioCopy src = src :=
  ioCopyGo_eq src.length src le_rfl

theorem ioCopyReadsGo_le (fuel : Nat) (src : Bytes) :
    ∀ r ∈ ioCopyReadsGo fuel src, r ≤ bufSize := by
  induction fuel generalizing src with
  | zero =>
    cases src with
    | nil => intro r hr; simp [ioCopyReadsGo] at hr
    | cons a as => intro r hr; simp [ioCopyReadsGo] at hr
  | succ n ih =>
    cases src with
    | nil => intro r hr; simp [ioCopyReadsGo] at hr
    | cons a as =>
      intro r hr
      simp only [ioCopyReadsGo, List.mem_cons] at hr
      rcases hr with h | h
      · rw [h]; exact min_le_left _ _
      · exact ih _ r h

/-- Each read `io.Copy` performs is bounded by the buffer size: the copy is
streaming, never a whole-file read. -/
theorem ioCopyReads_le (src : Bytes) : ∀ r ∈ ioCopyReads src, r ≤ bufSize :=
  ioCopyReadsGo_le src.length src

/-- The three possible traces of the copy stage: destination open failed
(nothing opened), cache-file open failed (destination closed), or the copy
ran (both files closed, destination last).  Every file opened is closed on
every exit path. -/
theorem copyStep_trace_shapes (dOk : Bool) (cf : Option Nat) (src dst : Path) (fs : FS) :
    (copyStep dOk cf src dst fs).2.2 = [] ∨
    (copyStep dOk cf src dst fs).2.2 = [Event.openDest dst, Event.closeFile dst] ∨
    (copyStep dOk cf src dst fs).2.2 =
      [Event.openDest dst, Event.openSrc src, Event.copyTo src dst,
       Event.closeFile src, Event.closeFile dst] := by
  unfold copyStep
  cases dOk with
  | false => simp
  | true =>
    simp only [if_true]
    cases applyOpen openOutputImageFlags dst fs src with
    | none => simp
    | some content => cases cf <;> simp

theorem copyStep_mem_cases (dOk : Bool) (cf : Option Nat) (src dst : Path) (fs : FS)
    (ev : Event) (h : ev ∈ (copyStep dOk cf src dst fs).2.2) :
    ev = Event.openDest dst ∨ ev = Event.openSrc src ∨ ev = Event.copyTo src dst ∨
      ev = Event.closeFile src ∨ ev = Event.closeFile dst := by
  rcases copyStep_trace_shapes dOk cf src dst fs with h1 | h1 | h1 <;>
    rw [h1] at h <;> simp at h <;> tauto

theorem copyStep_noFetch (dOk : Bool) (cf : Option Nat) (src dst : Path) (fs : FS) :
    ∀ ev ∈ (copyStep dOk cf src dst fs).2.2, ev.isFetch = false := by
  intro ev h
  rcases copyStep_mem_cases dOk cf src dst fs ev h with h1 | h1 | h1 | h1 | h1 <;>
    rw [h1] <;> rfl

/-- The events the final copy stage can emit, with the files involved. -/
theorem copyStep_vocab (P : Event → Prop) (dOk : Bool) (cf : Option Nat)
    (src dst : Path) (fs : FS)
    (h1 : ∀ p, P (Event.openDest p)) (h2 : ∀ p, P (Event.openSrc p))
    (h3 : ∀ p, P (Event.closeFile p)) (h4 : ∀ p q, P (Event.copyTo p q)) :
    ∀ ev ∈ (copyStep dOk cf src dst fs).2.2, P ev := by
  intro ev h
  rcases copyStep_mem_cases dOk cf src dst fs ev h with h | h | h | h | h <;>
    rw [h] <;> first | exact h1 _ | exact h2 _ | exact h3 _ | exact h4 _ _

/-- The event vocabulary of a `Shub.Pull` run: any download carries force
`true`; re-hash and file-removal events never occur. -/
def shubVocab : Event → Prop
  | Event.resolve => True
  | Event.cacheCheck _ => True
  | Event.armGuard _ => True
  | Event.shubDownload _ fl => fl = true
  | Event.openDest _ => True
  | Event.openSrc _ => True
  | Event.closeFile _ => True
  | Event.copyTo _ _ => True
  | _ => False

theorem shubPull_vocab (s : Shub) (e : ShubEnv) (fromURI dest : Path) (fs : FS) :
    ∀ ev ∈ (Shub.Pull s e fromURI dest fs).trace, shubVocab ev := by
  intro ev h
  unfold Shub.Pull at h
  by_cases hp : e.parseOk = false
  · rw [if_pos hp] at h; simp at h
  · rw [if_neg hp] at h
    cases hm : e.manifest with
    | none => rw [hm] at h; dsimp only at h; simp at h; rw [h]; trivial
    | some m =>
      rw [hm] at h
      dsimp only at h
      by_cases hd : s.cache.IsDisabled = true
      · rw [if_pos hd] at h
        cases hdc : e.downloadContent with
        | none =>
          rw [hdc] at h; dsimp only at h; simp at h
          rcases h with h | h <;> rw [h] <;> trivial
        | some b =>
          rw [hdc] at h; dsimp only at h; simp at h
          rcases h with h | h <;> rw [h] <;> trivial
      · rw [if_neg hd] at h
        rcases hce : s.cache.ShubImageExists e.hash fs m.commit (e.getName fromURI)
          with ⟨ex, err⟩
        rw [hce] at h
        cases err with
        | some ce => dsimp only at h; simp at h; rcases h with h | h <;> rw [h] <;> trivial
        | none =>
          dsimp only at h
          by_cases hex : ex = false
          · rw [if_pos hex] at h
            cases hdc : e.downloadContent with
            | none =>
              rw [hdc] at h; dsimp only at h; simp at h
              rcases h with h | h | h | h <;> rw [h] <;> trivial
            | some b =>
              rw [hdc] at h
              dsimp only at h
              simp only [List.cons_append, List.nil_append, List.mem_cons] at h
              rcases h with h | h | h | h | h
              · rw [h]; trivial
              · rw [h]; trivial
              · rw [h]; trivial
              · rw [h]; trivial
              · exact copyStep_vocab shubVocab _ _ _ _ _
                  (fun _ => trivial) (fun _ => trivial) (fun _ => trivial)
                  (fun _ _ => trivial) ev h
          · rw [if_neg hex] at h
            simp only [List.cons_append, List.nil_append, List.mem_cons] at h
            rcases h with h | h | h
            · rw [h]; trivial
            · rw [h]; trivial
            · exact copyStep_vocab shubVocab _ _ _ _ _
                (fun _ => trivial) (fun _ => trivial) (fun _ => trivial)
                (fun _ _ => trivial) ev h

/-- C9: every Hub (Shub) download — in disabled mode writing the caller's
destination directly, and when populating the cache path — is invoked with
the force/overwrite flag hard-coded to `true`. -/
theorem c9_shub_download_force_true (s : Shub) (e : ShubEnv) (fromURI dest : Path)
    (fs : FS) (d : Path) (fl : Bool)
    (h : Event.shubDownload d fl ∈ (Shub.Pull s e fromURI dest fs).trace) : fl = true :=
  shubPull_vocab s e fromURI dest fs _ h

/-- C9 witness: a concrete disabled-mode pull performs a download, and its
force flag is `true`. -/
theorem c9_witness :
    Event.shubDownload "/out" true ∈
      (Shub.Pull ⟨⟨true, "/cr"⟩, false⟩
        ⟨fun _ => "h", fun s => s, true, some ⟨"c"⟩, some [1], true, none⟩
        "shub://a/b" "/out" (fun _ => none)).trace ∧ true = true := by
  constructor
  · decide
  · exact c9_shub_download_force_true ⟨⟨true, "/cr"⟩, false⟩
      ⟨fun _ => "h", fun s => s, true, some ⟨"c"⟩, some [1], true, none⟩
      "shub://a/b" "/out" (fun _ => none) "/out" true (by decide)

/-- C10: `OciPull` resolves the remote image digest before the disabled-mode
check — a resolution failure aborts the pull even with the cache disabled —
and on the disabled-mode path the resolved digest is never used: two runs
differing only in the resolved digest behave identically. -/
theorem c10_oci_resolves_even_when_disabled :
    (∀ (e : OciEnv) (c : Handle) (name imageURI : Path) (fs : FS),
      e.sha = none →
      OciPull e c name imageURI fs =
        ⟨Except.error PullErr.resolveFailed, fs, [Event.resolve]⟩) ∧
    (∀ (hash : Bytes → String) (gn : String → String) (bc : Option Bytes) (dok : Bool)
      (cf : Option Nat) (c : Handle) (name imageURI : Path) (fs : FS) (s1 s2 : String),
      c.IsDisabled = true →
      OciPull ⟨hash, gn, some s1, bc, dok, cf⟩ c name imageURI fs =
        OciPull ⟨hash, gn, some s2, bc, dok, cf⟩ c name imageURI fs) := by
  constructor
  · intro e c name imageURI fs h
    unfold OciPull
    rw [h]
  · intro hash gn bc dok cf c name imageURI fs s1 s2 hc
    unfold OciPull
    rw [hc]
    rfl

/-- C10 witness: concrete disabled-cache runs — resolution failure aborts,
and two successful resolutions with different digests coincide. -/
theorem c10_witness :
    OciPull ⟨fun _ => "h", fun s => s, none, some [1], true, none⟩ ⟨true, "/cr"⟩
        "/out" "docker://img" (fun _ => none) =
      ⟨Except.error PullErr.resolveFailed, (fun _ => none), [Event.resolve]⟩ ∧
    OciPull ⟨fun _ => "h", fun s => s, some "a", some [1], true, none⟩ ⟨true, "/cr"⟩
        "/out" "docker://img" (fun _ => none) =
      OciPull ⟨fun _ => "h", fun s => s, some "b", some [1], true, none⟩ ⟨true, "/cr"⟩
        "/out" "docker://img" (fun _ => none) :=
  ⟨c10_oci_resolves_even_when_disabled.1 _ _ _ _ _ rfl,
   c10_oci_resolves_even_when_disabled.2 _ _ _ _ _ _ _ _ _ "a" "b" rfl⟩

/-- The trace of the post-check tail of `Oras.Pull` extends the trace
accumulated before it. -/
theorem orasPullTail_trace_append (e : OrasEnv) (hasEntry : Bool) (p dest : Path)
    (sum : String) (fs : FS) (tr : List Event) :
    ∃ rest, (orasPullTail e hasEntry p dest sum fs tr).trace = tr ++ rest := by
  unfold orasPullTail
  by_cases hh : hasEntry = false
  · rw [if_pos hh]
    cases hdc : e.downloadContent with
    | none => exact ⟨_, rfl⟩
    | some b =>
      dsimp only
      by_cases hb : e.hash b = sum
      · rw [if_pos hb]
        exact ⟨_, by rw [List.append_assoc]⟩
      · rw [if_neg hb]; exact ⟨_, rfl⟩
  · rw [if_neg hh]; exact ⟨_, rfl⟩

/-- C4 (code-bug evidence): in a concrete cache-enabled `OciPull` of a
not-yet-cached image, the interrupt guard is armed with the logical image
name (`imgName`, here `"img"`), while the build writes the cache path
`/cr/oci-tmp/s/img`; the two differ, and invoking the guard's cleanup on the
armed path leaves the in-progress cache file in place, so a partial file
survives an interruption.  `Shub.Pull` and `Oras.Pull` arm the guard with
the cache path itself; the spec intends the same here. -/
theorem c4_oci_guard_armed_with_wrong_path :
    (OciPull ⟨fun _ => "s", fun _ => "img", some "s", some [1], true, none⟩
        ⟨false, "/cr"⟩ "/out" "docker://img" (fun _ => none)).trace =
      [Event.resolve, Event.cacheCheck "/cr/oci-tmp/s/img", Event.armGuard "img",
       Event.buildToSIF "/cr/oci-tmp/s/img", Event.openDest "/out",
       Event.openSrc "/cr/oci-tmp/s/img", Event.copyTo "/cr/oci-tmp/s/img" "/out",
       Event.closeFile "/cr/oci-tmp/s/img", Event.closeFile "/out"] ∧
    ("img" : Path) ≠ "/cr/oci-tmp/s/img" ∧
    interruptCleanup "img" (FS.set (fun _ => none) "/cr/oci-tmp/s/img" [7])
        "/cr/oci-tmp/s/img" = some [7] :=
  ⟨by decide, by decide, by decide⟩

/-- C3 amended: with the cache disabled, `Shub.Pull` and `OciPull` perform
only the resolve and a fetch writing directly to the caller's destination —
no cache check, no cache write, no cache-to-destination copy, and no path
other than the destination changes; `Oras.Pull`, however, ignores the
disabled flag: it still consults (and, on a miss, writes) the cache path
derived from the resolved digest. -/
theorem c3_amended_disabled_mode :
    (∀ (s : Shub) (e : ShubEnv) (fromURI dest : Path) (fs : FS),
      s.cache.IsDisabled = true →
      (∀ ev ∈ (Shub.Pull s e fromURI dest fs).trace,
        ev = Event.resolve ∨ ev = Event.shubDownload dest true) ∧
      (∀ p, p ≠ dest → (Shub.Pull s e fromURI dest fs).fs p = fs p)) ∧
    (∀ (e : OciEnv) (c : Handle) (name imageURI : Path) (fs : FS),
      c.IsDisabled = true →
      (∀ ev ∈ (OciPull e c name imageURI fs).trace,
        ev = Event.resolve ∨ ev = Event.buildToSIF name) ∧
      (∀ p, p ≠ name → (OciPull e c name imageURI fs).fs p = fs p)) ∧
    (∀ (o : Oras) (e : OrasEnv) (fromURI dest : Path) (fs : FS) (sum : String),
      o.cache.IsDisabled = true → e.sha = some sum →
      Event.cacheCheck (o.cache.OrasImage sum (e.getName ("oras:" ++ fromURI))) ∈
        (Oras.Pull o e fromURI dest fs).trace) := by
  refine ⟨?_, ?_, ?_⟩
  · intro s e fromURI dest fs hd
    unfold Shub.Pull
    by_cases hp : e.parseOk = false
    · rw [if_pos hp]
      exact ⟨fun ev h => by simp at h, fun p _ => rfl⟩
    · rw [if_neg hp]
      cases hm : e.manifest with
      | none => exact ⟨fun ev h => by simp at h; tauto, fun p _ => rfl⟩
      | some m =>
        dsimp only
        rw [if_pos hd]
        cases hdc : e.downloadContent with
        | none => exact ⟨fun ev h => by simp at h; tauto, fun p _ => rfl⟩
        | some b =>
          refine ⟨fun ev h => by simp at h; tauto, fun p hp2 => ?_⟩
          show FS.set fs dest b p = fs p
          simp [FS.set, hp2]
  · intro e c name imageURI fs hd
    unfold OciPull
    cases hs : e.sha with
    | none => exact ⟨fun ev h => by simp at h; tauto, fun p _ => rfl⟩
    | some sum =>
      dsimp only
      rw [if_pos hd]
      cases hb : e.buildContent with
      | none => exact ⟨fun ev h => by simp at h; tauto, fun p _ => rfl⟩
      | some b =>
        refine ⟨fun ev h => by simp at h; tauto, fun p hp2 => ?_⟩
        show FS.set fs name b p = fs p
        simp [FS.set, hp2]
  · intro o e fromURI dest fs sum _ hs
    unfold Oras.Pull
    rw [hs]
    dsimp only
    rcases hce : o.cache.OrasImageExists e.hash fs sum (e.getName ("oras:" ++ fromURI))
      with ⟨ex, err⟩
    cases err with
    | some ce =>
      cases ce
      dsimp only
      by_cases hr : e.removeOk = true
      · rw [if_pos hr]
        obtain ⟨rest, hrest⟩ := orasPullTail_trace_append e ex
          (o.cache.OrasImage sum (e.getName ("oras:" ++ fromURI))) dest sum
          (fs.erase (o.cache.OrasImage sum (e.getName ("oras:" ++ fromURI))))
          [Event.resolve,
           Event.cacheCheck (o.cache.OrasImage sum (e.getName ("oras:" ++ fromURI))),
           Event.removeFile (o.cache.OrasImage sum (e.getName ("oras:" ++ fromURI)))]
        rw [hrest]
        exact List.mem_append_left _ (by simp)
      · rw [if_neg hr]
        simp
    | none =>
      dsimp only
      obtain ⟨rest, hrest⟩ := orasPullTail_trace_append e ex
        (o.cache.OrasImage sum (e.getName ("oras:" ++ fromURI))) dest sum fs
        [Event.resolve,
         Event.cacheCheck (o.cache.OrasImage sum (e.getName ("oras:" ++ fromURI)))]
      rw [hrest]
      exact List.mem_append_left _ (by simp)

/-- C3 counterexample: with the cache handle disabled, a concrete
`Oras.Pull` still consults the cache path and writes the fetched image
under the cache root — `Oras.Pull` has no disabled-mode branch, refuting
"no path under the cache root is created or read by any backend's Pull". -/
theorem c3_counterexample :
    (⟨true, "/cr"⟩ : Handle).IsDisabled = true ∧
    Event.cacheCheck "/cr/oras/s/nm" ∈
      (Oras.Pull ⟨⟨true, "/cr"⟩⟩
        ⟨fun _ => "s", fun _ => "nm", some "s", some [1], true, true, none⟩
        "ref" "/out" (fun _ => none)).trace ∧
    (Oras.Pull ⟨⟨true, "/cr"⟩⟩
        ⟨fun _ => "s", fun _ => "nm", some "s", some [1], true, true, none⟩
        "ref" "/out" (fun _ => none)).fs "/cr/oras/s/nm" = some [1] :=
  ⟨rfl, by decide, by decide⟩

/-- C3 witness: the amended theorem applied at concrete disabled-cache
pulls — the Shub and OCI pulls leave their cache paths untouched, while the
Oras pull still checks its cache path. -/
theorem c3_witness :
    (Shub.Pull ⟨⟨true, "/cr"⟩, false⟩
        ⟨fun _ => "h", fun _ => "nm", true, some ⟨"c"⟩, some [1], true, none⟩
        "u" "/out" (fun _ => none)).fs "/cr/shub/c/nm" = none ∧
    (OciPull ⟨fun _ => "h", fun _ => "nm", some "s", some [1], true, none⟩ ⟨true, "/cr"⟩
        "/out" "u" (fun _ => none)).fs "/cr/oci-tmp/s/nm" = none ∧
    Event.cacheCheck ((⟨⟨true, "/cr"⟩⟩ : Oras).cache.OrasImage "s"
        ((fun _ => "nm") ("oras:" ++ "ref"))) ∈
      (Oras.Pull ⟨⟨true, "/cr"⟩⟩
        ⟨fun _ => "s", fun _ => "nm", some "s", some [1], true, true, none⟩
        "ref" "/out" (fun _ => none)).trace := by
  refine ⟨?_, ?_, ?_⟩
  · have := (c3_amended_disabled_mode.1 ⟨⟨true, "/cr"⟩, false⟩
      ⟨fun _ => "h", fun _ => "nm", true, some ⟨"c"⟩, some [1], true, none⟩
      "u" "/out" (fun _ => none) rfl).2 "/cr/shub/c/nm" (by decide)
    rw [this]
  · have := (c3_amended_disabled_mode.2.1
      ⟨fun _ => "h", fun _ => "nm", some "s", some [1], true, none⟩ ⟨true, "/cr"⟩
      "/out" "u" (fun _ => none) rfl).2 "/cr/oci-tmp/s/nm" (by decide)
    rw [this]
  · exact c3_amended_disabled_mode.2.2 ⟨⟨true, "/cr"⟩⟩
      ⟨fun _ => "s", fun _ => "nm", some "s", some [1], true, true, none⟩
      "ref" "/out" (fun _ => none) "s" rfl rfl

/-- C1 counterexample: a concrete Shub pull over a corrupt cache entry
(stored bytes hash to "h" while the path encodes commit "c") fails the pull
with the existence check's error: the corrupt entry is not deleted and no
fresh fetch happens — refuting "every backend's Pull logs the corruption,
deletes the bad cache entry, and falls through to a fresh fetch rather than
failing the pull". -/
theorem c1_counterexample :
    (Shub.Pull ⟨⟨false, "/cr"⟩, false⟩
        ⟨fun _ => "h", fun _ => "nm", true, some ⟨"c"⟩, some [1], true, none⟩
        "u" "/out" (fun q => if q = "/cr/shub/c/nm" then some [9] else none)).result =
      Except.error PullErr.existsCheckFailed ∧
    (Shub.Pull ⟨⟨false, "/cr"⟩, false⟩
        ⟨fun _ => "h", fun _ => "nm", true, some ⟨"c"⟩, some [1], true, none⟩
        "u" "/out" (fun q => if q = "/cr/shub/c/nm" then some [9] else none)).trace =
      [Event.resolve, Event.cacheCheck "/cr/shub/c/nm"] ∧
    (Shub.Pull ⟨⟨false, "/cr"⟩, false⟩
        ⟨fun _ => "h", fun _ => "nm", true, some ⟨"c"⟩, some [1], true, none⟩
        "u" "/out" (fun q => if q = "/cr/shub/c/nm" then some [9] else none)).fs
      "/cr/shub/c/nm" = some [9] :=
  ⟨by decide, by decide, by decide⟩

/-- C1 amended: the cache existence check distinguishes the three outcomes
present-and-valid, absent, and present-but-corrupt; on the
present-but-corrupt outcome the Oras backend's pull removes the bad entry
and falls through to a fresh fetch, while the Shub and OCI backends' pulls
fail the pull with the check's error (no deletion, no fetch). -/
theorem c1_amended_corruption_handling :
    (∀ (hash : Bytes → String) (fs : FS) (p : Path) (sum : String),
      (fs p = none → cacheExists hash fs p sum = (false, none)) ∧
      (∀ b, fs p = some b → hash b = sum → cacheExists hash fs p sum = (true, none)) ∧
      (∀ b, fs p = some b → hash b ≠ sum →
        cacheExists hash fs p sum = (false, some CacheErr.badChecksum))) ∧
    (∀ (o : Oras) (e : OrasEnv) (fromURI dest : Path) (fs : FS) (sum : String) (b : Bytes),
      e.sha = some sum → e.removeOk = true →
      fs (o.cache.OrasImage sum (e.getName ("oras:" ++ fromURI))) = some b →
      e.hash b ≠ sum →
      ∃ rest, (Oras.Pull o e fromURI dest fs).trace =
        [Event.resolve,
         Event.cacheCheck (o.cache.OrasImage sum (e.getName ("oras:" ++ fromURI))),
         Event.removeFile (o.cache.OrasImage sum (e.getName ("oras:" ++ fromURI))),
         Event.armGuard (o.cache.OrasImage sum (e.getName ("oras:" ++ fromURI))),
         Event.orasDownload (o.cache.OrasImage sum (e.getName ("oras:" ++ fromURI)))] ++
          rest) ∧
    (∀ (s : Shub) (e : ShubEnv) (fromURI dest : Path) (fs : FS) (m : Manifest) (b : Bytes),
      e.parseOk = true → e.manifest = some m → s.cache.IsDisabled = false →
      fs (s.cache.ShubImage m.commit (e.getName fromURI)) = some b →
      e.hash b ≠ m.commit →
      (Shub.Pull s e fromURI dest fs).result = Except.error PullErr.existsCheckFailed ∧
      (Shub.Pull s e fromURI dest fs).fs = fs ∧
      (Shub.Pull s e fromURI dest fs).trace =
        [Event.resolve, Event.cacheCheck (s.cache.ShubImage m.commit (e.getName fromURI))]) ∧
    (∀ (e : OciEnv) (c : Handle) (name imageURI : Path) (fs : FS) (sum : String) (b : Bytes),
      e.sha = some sum → c.IsDisabled = false →
      fs (c.OciTempImage sum (e.getName imageURI)) = some b →
      e.hash b ≠ sum →
      (OciPull e c name imageURI fs).result = Except.error PullErr.existsCheckFailed ∧
      (OciPull e c name imageURI fs).fs = fs ∧
      (OciPull e c name imageURI fs).trace =
        [Event.resolve, Event.cacheCheck (c.OciTempImage sum (e.getName imageURI))]) := by
  refine ⟨?_, ?_, ?_, ?_⟩
  · intro hash fs p sum
    refine ⟨fun h => ?_, fun b hb hh => ?_, fun b hb hh => ?_⟩
    · unfold cacheExists; rw [h]
    · unfold cacheExists; rw [hb]; dsimp only; rw [if_pos hh]
    · unfold cacheExists; rw [hb]; dsimp only; rw [if_neg hh]
  · intro o e fromURI dest fs sum b hs hr hfs hb
    have hce : o.cache.OrasImageExists e.hash fs sum (e.getName ("oras:" ++ fromURI)) =
        (false, some CacheErr.badChecksum) := by
      unfold Handle.OrasImageExists cacheExists
      rw [hfs]; dsimp only; rw [if_neg hb]
    unfold Oras.Pull
    rw [hs]
    dsimp only
    rw [hce]
    dsimp only
    rw [if_pos hr]
    unfold orasPullTail
    rw [if_pos rfl]
    cases hdc : e.downloadContent with
    | none => exact ⟨[], by simp⟩
    | some b2 =>
      dsimp only
      by_cases hb2 : e.hash b2 = sum
      · rw [if_pos hb2]
        refine ⟨Event.rehash (o.cache.OrasImage sum (e.getName ("oras:" ++ fromURI))) ::
          (copyStep e.destOpenOk e.copyFail
            (o.cache.OrasImage sum (e.getName ("oras:" ++ fromURI))) dest
            ((fs.erase (o.cache.OrasImage sum (e.getName ("oras:" ++ fromURI)))).set
              (o.cache.OrasImage sum (e.getName ("oras:" ++ fromURI))) b2)).2.2, ?_⟩
        simp
      · rw [if_neg hb2]
        exact ⟨[Event.rehash (o.cache.OrasImage sum (e.getName ("oras:" ++ fromURI)))],
          by simp⟩
  · intro s e fromURI dest fs m b hp hm hd hfs hb
    have hpf : ¬ (e.parseOk = false) := by rw [hp]; simp
    have hdf : ¬ (s.cache.IsDisabled = true) := by rw [hd]; simp
    have hce : s.cache.ShubImageExists e.hash fs m.commit (e.getName fromURI) =
        (false, some CacheErr.badChecksum) := by
      unfold Handle.ShubImageExists cacheExists
      rw [hfs]; dsimp only; rw [if_neg hb]
    unfold Shub.Pull
    rw [if_neg hpf, hm]
    dsimp only
    rw [if_neg hdf, hce]
    exact ⟨rfl, rfl, rfl⟩
  · intro e c name imageURI fs sum b hs hd hfs hb
    have hdf : ¬ (c.IsDisabled = true) := by rw [hd]; simp
    have hce : c.OciTempExists e.hash fs sum (e.getName imageURI) =
        (false, some CacheErr.badChecksum) := by
      unfold Handle.OciTempExists cacheExists
      rw [hfs]; dsimp only; rw [if_neg hb]
    unfold OciPull
    rw [hs]
    dsimp only
    rw [if_neg hdf, hce]
    exact ⟨rfl, rfl, rfl⟩

/-- C1 witness: the amended theorem applied to a concrete Shub pull over a
corrupt cache entry — the pull fails with the check's error, the filesystem
is untouched, and the trace stops at the check. -/
theorem c1_witness :
    (Shub.Pull ⟨⟨false, "/cr"⟩, false⟩
        ⟨fun _ => "h", fun _ => "nm", true, some ⟨"c"⟩, some [1], true, none⟩
        "u" "/out" (fun q => if q = "/cr/shub/c/nm" then some [9] else none)).result =
      Except.error PullErr.existsCheckFailed ∧
    (Shub.Pull ⟨⟨false, "/cr"⟩, false⟩
        ⟨fun _ => "h", fun _ => "nm", true, some ⟨"c"⟩, some [1], true, none⟩
        "u" "/out" (fun q => if q = "/cr/shub/c/nm" then some [9] else none)).fs =
      (fun q => if q = "/cr/shub/c/nm" then some [9] else none) ∧
    (Shub.Pull ⟨⟨false, "/cr"⟩, false⟩
        ⟨fun _ => "h", fun _ => "nm", true, some ⟨"c"⟩, some [1], true, none⟩
        "u" "/out" (fun q => if q = "/cr/shub/c/nm" then some [9] else none)).trace =
      [Event.resolve, Event.cacheCheck "/cr/shub/c/nm"] :=
  c1_amended_corruption_handling.2.2.1 ⟨⟨false, "/cr"⟩, false⟩
    ⟨fun _ => "h", fun _ => "nm", true, some ⟨"c"⟩, some [1], true, none⟩
    "u" "/out" (fun q => if q = "/cr/shub/c/nm" then some [9] else none) ⟨"c"⟩ [9]
    rfl rfl rfl (by decide) (by decide)

/-- C2 counterexample: a concrete Oras pull of an uncached image whose
downloaded bytes hash to "h" instead of the resolved digest "s" fails with
the integrity error but leaves the mismatching file in the cache — refuting
"the pull fails with an integrity error after deleting the bad file from
the cache, so the mismatching entry is never left cached"; and a concrete
Shub pull that fetches performs no post-fetch re-hash at all. -/
theorem c2_counterexample :
    (Oras.Pull ⟨⟨false, "/cr"⟩⟩
        ⟨fun _ => "h", fun _ => "nm", some "s", some [1], true, true, none⟩
        "ref" "/out" (fun _ => none)).result = Except.error PullErr.hashMismatch ∧
    (Oras.Pull ⟨⟨false, "/cr"⟩⟩
        ⟨fun _ => "h", fun _ => "nm", some "s", some [1], true, true, none⟩
        "ref" "/out" (fun _ => none)).fs "/cr/oras/s/nm" = some [1] ∧
    (Shub.Pull ⟨⟨false, "/cr"⟩, false⟩
        ⟨fun _ => "c", fun _ => "nm", true, some ⟨"c"⟩, some [1], true, none⟩
        "u" "/out" (fun _ => none)).trace =
      [Event.resolve, Event.cacheCheck "/cr/shub/c/nm", Event.armGuard "/cr/shub/c/nm",
       Event.shubDownload "/cr/shub/c/nm" true, Event.openDest "/out",
       Event.openSrc "/cr/shub/c/nm", Event.copyTo "/cr/shub/c/nm" "/out",
       Event.closeFile "/cr/shub/c/nm", Event.closeFile "/out"] :=
  ⟨by decide, by decide, by decide⟩

/-- C2 amended: after an Oras fetch into the cache the written file is
re-hashed against the resolved digest and a mismatch fails the pull with an
integrity error before any copy to the destination — but the mismatching
file is left in the cache (it is only removed by a later pull's corruption
check); the Shub backend performs no post-fetch re-hash at all. -/
theorem c2_amended_post_fetch_verification :
    (∀ (o : Oras) (e : OrasEnv) (fromURI dest : Path) (fs : FS) (sum : String) (b : Bytes),
      e.sha = some sum →
      fs (o.cache.OrasImage sum (e.getName ("oras:" ++ fromURI))) = none →
      e.downloadContent = some b → e.hash b ≠ sum →
      (Oras.Pull o e fromURI dest fs).result = Except.error PullErr.hashMismatch ∧
      (Oras.Pull o e fromURI dest fs).fs
          (o.cache.OrasImage sum (e.getName ("oras:" ++ fromURI))) = some b ∧
      (Oras.Pull o e fromURI dest fs).trace =
        [Event.resolve,
         Event.cacheCheck (o.cache.OrasImage sum (e.getName ("oras:" ++ fromURI))),
         Event.armGuard (o.cache.OrasImage sum (e.getName ("oras:" ++ fromURI))),
         Event.orasDownload (o.cache.OrasImage sum (e.getName ("oras:" ++ fromURI))),
         Event.rehash (o.cache.OrasImage sum (e.getName ("oras:" ++ fromURI)))]) ∧
    (∀ (s : Shub) (e : ShubEnv) (fromURI dest : Path) (fs : FS) (p : Path),
      Event.rehash p ∉ (Shub.Pull s e fromURI dest fs).trace) := by
  constructor
  · intro o e fromURI dest fs sum b hs hfs hdc hb
    have hce : o.cache.OrasImageExists e.hash fs sum (e.getName ("oras:" ++ fromURI)) =
        (false, none) := by
      unfold Handle.OrasImageExists cacheExists
      rw [hfs]
    unfold Oras.Pull
    rw [hs]
    dsimp only
    rw [hce]
    dsimp only
    unfold orasPullTail
    rw [if_pos rfl, hdc]
    dsimp only
    rw [if_neg hb]
    refine ⟨rfl, ?_, by simp⟩
    show FS.set _ _ _ _ = _
    simp [FS.set]
  · intro s e fromURI dest fs p hmem
    have := shubPull_vocab s e fromURI dest fs _ hmem
    simp [shubVocab] at this

/-- C2 witness: the amended theorem applied to a concrete mismatching Oras
fetch, and to a concrete Shub pull (no re-hash event). -/
theorem c2_witness :
    (Oras.Pull ⟨⟨false, "/cr"⟩⟩
        ⟨fun _ => "h", fun _ => "nm", some "s", some [1], true, true, none⟩
        "ref" "/out" (fun _ => none)).result = Except.error PullErr.hashMismatch ∧
    Event.rehash "/cr/shub/c/nm" ∉
      (Shub.Pull ⟨⟨false, "/cr"⟩, false⟩
        ⟨fun _ => "c", fun _ => "nm", true, some ⟨"c"⟩, some [1], true, none⟩
        "u" "/out" (fun _ => none)).trace :=
  ⟨(c2_amended_post_fetch_verification.1 ⟨⟨false, "/cr"⟩⟩
      ⟨fun _ => "h", fun _ => "nm", some "s", some [1], true, true, none⟩
      "ref" "/out" (fun _ => none) "s" [1] rfl rfl rfl (by decide)).1,
   c2_amended_post_fetch_verification.2 ⟨⟨false, "/cr"⟩, false⟩
      ⟨fun _ => "c", fun _ => "nm", true, some ⟨"c"⟩, some [1], true, none⟩
      "u" "/out" (fun _ => none) "/cr/shub/c/nm"⟩

theorem copyStep_openDest_mem (dOk : Bool) (cf : Option Nat) (src dst : Path) (fs : FS)
    (p : Path) (h : Event.openDest p ∈ (copyStep dOk cf src dst fs).2.2) : dOk = true := by
  cases dOk with
  | false => unfold copyStep at h; simp at h
  | true => rfl

theorem cacheExists_corrupt_fst (hash : Bytes → String) (fs : FS) (p : Path) (sum : String)
    (ex : Bool) (ce : CacheErr) (h : cacheExists hash fs p sum = (ex, some ce)) :
    ex = false := by
  unfold cacheExists at h
  cases hfp : fs p with
  | none => rw [hfp] at h; simp at h
  | some b =>
    rw [hfp] at h
    dsimp only at h
    by_cases hh : hash b = sum
    · rw [if_pos hh] at h; simp at h
    · rw [if_neg hh] at h
      simp only [Prod.mk.injEq] at h
      exact h.1.symm

/-- All steps of a Shub pull before the destination open succeed: parse,
manifest fetch, cache mode, and a valid cache hit or a successful
download. -/
def shubPreStepsOk (s : Shub) (e : ShubEnv) (fromURI : Path) (fs : FS) : Bool :=
  e.parseOk && !s.cache.IsDisabled &&
    (match e.manifest with
     | none => false
     | some m =>
       match s.cache.ShubImageExists e.hash fs m.commit (e.getName fromURI) with
       | (true, none) => true
       | (false, none) => e.downloadContent.isSome
       | (_, some _) => false)

/-- All steps of an Oras pull before the destination open succeed: digest
resolution, and a valid cache hit or (possibly after purging a corrupt
entry) a download whose re-hash matches the digest. -/
def orasPreStepsOk (o : Oras) (e : OrasEnv) (fromURI : Path) (fs : FS) : Bool :=
  match e.sha with
  | none => false
  | some sum =>
    let fetchOk := match e.downloadContent with
      | none => false
      | some b => e.hash b == sum
    match o.cache.OrasImageExists e.hash fs sum (e.getName ("oras:" ++ fromURI)) with
    | (true, none) => true
    | (false, none) => fetchOk
    | (_, some _) => e.removeOk && fetchOk

/-- All steps of an OCI pull before the destination open succeed: digest
resolution, cache mode, and a valid cache hit or a successful build. -/
def ociPreStepsOk (e : OciEnv) (c : Handle) (imageURI : Path) (fs : FS) : Bool :=
  match e.sha with
  | none => false
  | some sum =>
    !c.IsDisabled &&
      (match c.OciTempExists e.hash fs sum (e.getName imageURI) with
       | (true, none) => true
       | (false, none) => e.buildContent.isSome
       | (_, some _) => false)

theorem orasPullTail_openDest (e : OrasEnv) (hasEntry : Bool) (p dest : Path)
    (sum : String) (fs : FS) (tr : List Event)
    (hnd : ∀ q, Event.openDest q ∉ tr)
    (h : Event.openDest dest ∈ (orasPullTail e hasEntry p dest sum fs tr).trace) :
    e.destOpenOk = true ∧
      (hasEntry = true ∨ ∃ b, e.downloadContent = some b ∧ e.hash b = sum) := by
  unfold orasPullTail at h
  by_cases hh : hasEntry = false
  · rw [if_pos hh] at h
    cases hdc : e.downloadContent with
    | none =>
      rw [hdc] at h
      dsimp only at h
      rw [List.mem_append] at h
      rcases h with h | h
      · exact absurd h (hnd dest)
      · simp at h
    | some b =>
      rw [hdc] at h
      dsimp only at h
      by_cases hb : e.hash b = sum
      · rw [if_pos hb] at h
        rw [List.mem_append] at h
        rcases h with h | h
        · rw [List.mem_append] at h
          rcases h with h | h
          · exact absurd h (hnd dest)
          · simp at h
        · exact ⟨copyStep_openDest_mem _ _ _ _ _ _ h, Or.inr ⟨b, rfl, hb⟩⟩
      · rw [if_neg hb] at h
        rw [List.mem_append] at h
        rcases h with h | h
        · exact absurd h (hnd dest)
        · simp at h
  · rw [if_neg hh] at h
    rw [List.mem_append] at h
    rcases h with h | h
    · exact absurd h (hnd dest)
    · refine ⟨copyStep_openDest_mem _ _ _ _ _ _ h, Or.inl ?_⟩
      revert hh
      cases hasEntry <;> simp

/-- C5 amended: in every backend, the destination is opened for writing
only when all prior steps — resolve, cache check or fetch, verification —
have succeeded (and the open itself succeeds); however a failure in the
final copy stage itself can leave a truncated destination file behind
(see the counterexample). -/
theorem c5_amended_destination_open_discipline :
    (∀ (s : Shub) (e : ShubEnv) (fromURI dest : Path) (fs : FS),
      Event.openDest dest ∈ (Shub.Pull s e fromURI dest fs).trace →
      shubPreStepsOk s e fromURI fs = true ∧ e.destOpenOk = true) ∧
    (∀ (o : Oras) (e : OrasEnv) (fromURI dest : Path) (fs : FS),
      Event.openDest dest ∈ (Oras.Pull o e fromURI dest fs).trace →
      orasPreStepsOk o e fromURI fs = true ∧ e.destOpenOk = true) ∧
    (∀ (e : OciEnv) (c : Handle) (name imageURI : Path) (fs : FS),
      Event.openDest name ∈ (OciPull e c name imageURI fs).trace →
      ociPreStepsOk e c imageURI fs = true ∧ e.destOpenOk = true) := by
  refine ⟨?_, ?_, ?_⟩
  · intro s e fromURI dest fs h
    unfold Shub.Pull at h
    by_cases hp : e.parseOk = false
    · rw [if_pos hp] at h; simp at h
    · have hp2 : e.parseOk = true := by revert hp; cases e.parseOk <;> simp
      rw [if_neg hp] at h
      cases hm : e.manifest with
      | none => rw [hm] at h; dsimp only at h; simp at h
      | some m =>
        rw [hm] at h
        dsimp only at h
        by_cases hd : s.cache.IsDisabled = true
        · rw [if_pos hd] at h
          cases hdc : e.downloadContent with
          | none => rw [hdc] at h; dsimp only at h; simp at h
          | some b => rw [hdc] at h; dsimp only at h; simp at h
        · have hd2 : s.cache.IsDisabled = false := by
            revert hd; cases s.cache.IsDisabled <;> simp
          rw [if_neg hd] at h
          rcases hce : s.cache.ShubImageExists e.hash fs m.commit (e.getName fromURI)
            with ⟨ex, err⟩
          rw [hce] at h
          cases err with
          | some ce => dsimp only at h; simp at h
          | none =>
            dsimp only at h
            by_cases hex : ex = false
            · rw [if_pos hex] at h
              cases hdc : e.downloadContent with
              | none => rw [hdc] at h; dsimp only at h; simp at h
              | some b =>
                rw [hdc] at h
                dsimp only at h
                rw [List.mem_append] at h
                rcases h with h | h
                · simp at h
                · rw [hex] at hce
                  refine ⟨?_, copyStep_openDest_mem _ _ _ _ _ _ h⟩
                  simp [shubPreStepsOk, hm, hce, hdc, hp2, hd2]
            · have hex2 : ex = true := by revert hex; cases ex <;> simp
              rw [if_neg hex] at h
              rw [List.mem_append] at h
              rcases h with h | h
              · simp at h
              · rw [hex2] at hce
                refine ⟨?_, copyStep_openDest_mem _ _ _ _ _ _ h⟩
                simp [shubPreStepsOk, hm, hce, hp2, hd2]
  · intro o e fromURI dest fs h
    unfold Oras.Pull at h
    cases hs : e.sha with
    | none => rw [hs] at h; simp at h
    | some sum =>
      rw [hs] at h
      dsimp only at h
      rcases hce : o.cache.OrasImageExists e.hash fs sum (e.getName ("oras:" ++ fromURI))
        with ⟨ex, err⟩
      rw [hce] at h
      cases err with
      | some ce =>
        cases ce
        dsimp only at h
        by_cases hr : e.removeOk = true
        · rw [if_pos hr] at h
          obtain ⟨hdok, hcase⟩ :=
            orasPullTail_openDest e ex _ dest sum _ _ (by intro q hq; simp at hq) h
          have hex : ex = false :=
            cacheExists_corrupt_fst e.hash fs _ sum ex CacheErr.badChecksum hce
          rcases hcase with hET | ⟨b, hdc, hb⟩
          · rw [hex] at hET; cases hET
          · refine ⟨?_, hdok⟩
            rw [hex] at hce
            simp [orasPreStepsOk, hs, hce, hdc, hr, hb]
        · rw [if_neg hr] at h; simp at h
      | none =>
        dsimp only at h
        obtain ⟨hdok, hcase⟩ :=
          orasPullTail_openDest e ex _ dest sum _ _ (by intro q hq; simp at hq) h
        refine ⟨?_, hdok⟩
        rcases hcase with hET | ⟨b, hdc, hb⟩
        · rw [hET] at hce
          simp [orasPreStepsOk, hs, hce]
        · cases hex : ex with
          | true => rw [hex] at hce; simp [orasPreStepsOk, hs, hce]
          | false => rw [hex] at hce; simp [orasPreStepsOk, hs, hce, hdc, hb]
  · intro e c name imageURI fs h
    unfold OciPull at h
    cases hs : e.sha with
    | none => rw [hs] at h; simp at h
    | some sum =>
      rw [hs] at h
      dsimp only at h
      by_cases hd : c.IsDisabled = true
      · rw [if_pos hd] at h
        cases hb : e.buildContent with
        | none => rw [hb] at h; dsimp only at h; simp at h
        | some b => rw [hb] at h; dsimp only at h; simp at h
      · have hd2 : c.IsDisabled = false := by revert hd; cases c.IsDisabled <;> simp
        rw [if_neg hd] at h
        rcases hce : c.OciTempExists e.hash fs sum (e.getName imageURI) with ⟨ex, err⟩
        rw [hce] at h
        cases err with
        | some ce => dsimp only at h; simp at h
        | none =>
          dsimp only at h
          by_cases hex : ex = false
          · rw [if_pos hex] at h
            cases hb : e.buildContent with
            | none => rw [hb] at h; dsimp only at h; simp at h
            | some b =>
              rw [hb] at h
              dsimp only at h
              rw [List.mem_append] at h
              rcases h with h | h
              · simp at h
              · rw [hex] at hce
                refine ⟨?_, copyStep_openDest_mem _ _ _ _ _ _ h⟩
                simp [ociPreStepsOk, hs, hce, hb, hd2]
          · have hex2 : ex = true := by revert hex; cases ex <;> simp
            rw [if_neg hex] at h
            rw [List.mem_append] at h
            rcases h with h | h
            · simp at h
            · rw [hex2] at hce
              refine ⟨?_, copyStep_openDest_mem _ _ _ _ _ _ h⟩
              simp [ociPreStepsOk, hs, hce, hd2]

/-- C5 counterexample: a concrete Shub pull with a valid cache hit whose
destination copy fails mid-stream returns a failure yet leaves a truncated
destination file — the pre-existing destination content `[9]` has been
replaced by the truncated `[]` — refuting "no partial destination file is
left behind when the pull returns a failure". -/
theorem c5_counterexample :
    (Shub.Pull ⟨⟨false, "/cr"⟩, false⟩
        ⟨fun _ => "c", fun _ => "nm", true, some ⟨"c"⟩, none, true, some 0⟩
        "u" "/out" (fun q => if q = "/cr/shub/c/nm" then some [7, 7] else
          if q = "/out" then some [9] else none)).result =
      Except.error PullErr.copyFailed ∧
    (Shub.Pull ⟨⟨false, "/cr"⟩, false⟩
        ⟨fun _ => "c", fun _ => "nm", true, some ⟨"c"⟩, none, true, some 0⟩
        "u" "/out" (fun q => if q = "/cr/shub/c/nm" then some [7, 7] else
          if q = "/out" then some [9] else none)).fs "/out" = some [] ∧
    (fun q => if q = "/cr/shub/c/nm" then some ([7, 7] : Bytes) else
      if q = "/out" then some [9] else none) "/out" = some [9] :=
  ⟨by decide, by decide, by decide⟩

/-- C5 witness: the amended theorem applied to a concrete cache-hit pull
whose trace opens the destination — all prior steps indeed succeeded. -/
theorem c5_witness :
    shubPreStepsOk ⟨⟨false, "/cr"⟩, false⟩
      ⟨fun _ => "c", fun _ => "nm", true, some ⟨"c"⟩, some [1], true, none⟩
      "u" (fun q => if q = "/cr/shub/c/nm" then some [7] else none) = true ∧
    (⟨fun _ => "c", fun _ => "nm", true, some ⟨"c"⟩, some [1], true, none⟩ :
      ShubEnv).destOpenOk = true :=
  c5_amended_destination_open_discipline.1 ⟨⟨false, "/cr"⟩, false⟩
    ⟨fun _ => "c", fun _ => "nm", true, some ⟨"c"⟩, some [1], true, none⟩
    "u" "/out" (fun q => if q = "/cr/shub/c/nm" then some [7] else none) (by decide)

/-- C6: on a present-and-valid cache hit `(true, nil)`, no fetch (download
or build) is invoked by any backend: the trace is exactly the resolve, the
cache check, and the copy stage from the cache path to the destination. -/
theorem c6_cache_hit_no_fetch :
    (∀ (s : Shub) (e : ShubEnv) (fromURI dest : Path) (fs : FS) (m : Manifest),
      e.parseOk = true → e.manifest = some m → s.cache.IsDisabled = false →
      s.cache.ShubImageExists e.hash fs m.commit (e.getName fromURI) = (true, none) →
      (Shub.Pull s e fromURI dest fs).trace =
        [Event.resolve, Event.cacheCheck (s.cache.ShubImage m.commit (e.getName fromURI))] ++
          (copyStep e.destOpenOk e.copyFail (s.cache.ShubImage m.commit (e.getName fromURI))
            dest fs).2.2 ∧
      ∀ ev ∈ (Shub.Pull s e fromURI dest fs).trace, ev.isFetch = false) ∧
    (∀ (o : Oras) (e : OrasEnv) (fromURI dest : Path) (fs : FS) (sum : String),
      e.sha = some sum →
      o.cache.OrasImageExists e.hash fs sum (e.getName ("oras:" ++ fromURI)) = (true, none) →
      (Oras.Pull o e fromURI dest fs).trace =
        [Event.resolve,
         Event.cacheCheck (o.cache.OrasImage sum (e.getName ("oras:" ++ fromURI)))] ++
          (copyStep e.destOpenOk e.copyFail
            (o.cache.OrasImage sum (e.getName ("oras:" ++ fromURI))) dest fs).2.2 ∧
      ∀ ev ∈ (Oras.Pull o e fromURI dest fs).trace, ev.isFetch = false) ∧
    (∀ (e : OciEnv) (c : Handle) (name imageURI : Path) (fs : FS) (sum : String),
      e.sha = some sum → c.IsDisabled = false →
      c.OciTempExists e.hash fs sum (e.getName imageURI) = (true, none) →
      (OciPull e c name imageURI fs).trace =
        [Event.resolve, Event.cacheCheck (c.OciTempImage sum (e.getName imageURI))] ++
          (copyStep e.destOpenOk e.copyFail (c.OciTempImage sum (e.getName imageURI))
            name fs).2.2 ∧
      ∀ ev ∈ (OciPull e c name imageURI fs).trace, ev.isFetch = false) := by
  refine ⟨?_, ?_, ?_⟩
  · intro s e fromURI dest fs m hp hm hd hce
    have hpf : ¬ (e.parseOk = false) := by simp [hp]
    have hdf : ¬ (s.cache.IsDisabled = true) := by simp [hd]
    have htr : (Shub.Pull s e fromURI dest fs).trace =
        [Event.resolve, Event.cacheCheck (s.cache.ShubImage m.commit (e.getName fromURI))] ++
          (copyStep e.destOpenOk e.copyFail (s.cache.ShubImage m.commit (e.getName fromURI))
            dest fs).2.2 := by
      unfold Shub.Pull
      rw [if_neg hpf, hm]
      dsimp only
      rw [if_neg hdf, hce]
      dsimp only
      rw [if_neg (by simp : ¬ ((true : Bool) = false))]
    refine ⟨htr, ?_⟩
    intro ev hmem
    rw [htr, List.mem_append] at hmem
    rcases hmem with hmem | hmem
    · simp at hmem
      rcases hmem with h | h <;> rw [h] <;> rfl
    · exact copyStep_noFetch _ _ _ _ _ ev hmem
  · intro o e fromURI dest fs sum hs hce
    have htr : (Oras.Pull o e fromURI dest fs).trace =
        [Event.resolve,
         Event.cacheCheck (o.cache.OrasImage sum (e.getName ("oras:" ++ fromURI)))] ++
          (copyStep e.destOpenOk e.copyFail
            (o.cache.OrasImage sum (e.getName ("oras:" ++ fromURI))) dest fs).2.2 := by
      unfold Oras.Pull
      rw [hs]
      dsimp only
      rw [hce]
      dsimp only
      unfold orasPullTail
      rw [if_neg (by simp : ¬ ((true : Bool) = false))]
    refine ⟨htr, ?_⟩
    intro ev hmem
    rw [htr, List.mem_append] at hmem
    rcases hmem with hmem | hmem
    · simp at hmem
      rcases hmem with h | h <;> rw [h] <;> rfl
    · exact copyStep_noFetch _ _ _ _ _ ev hmem
  · intro e c name imageURI fs sum hs hd hce
    have hdf : ¬ (c.IsDisabled = true) := by simp [hd]
    have htr : (OciPull e c name imageURI fs).trace =
        [Event.resolve, Event.cacheCheck (c.OciTempImage sum (e.getName imageURI))] ++
          (copyStep e.destOpenOk e.copyFail (c.OciTempImage sum (e.getName imageURI))
            name fs).2.2 := by
      unfold OciPull
      rw [hs]
      dsimp only
      rw [if_neg hdf, hce]
      dsimp only
      rw [if_neg (by simp : ¬ ((true : Bool) = false))]
    refine ⟨htr, ?_⟩
    intro ev hmem
    rw [htr, List.mem_append] at hmem
    rcases hmem with hmem | hmem
    · simp at hmem
      rcases hmem with h | h <;> rw [h] <;> rfl
    · exact copyStep_noFetch _ _ _ _ _ ev hmem

/-- C6 witness: a concrete Shub pull over a valid cache hit exercises only
the check and the copy. -/
theorem c6_witness :
    (Shub.Pull ⟨⟨false, "/cr"⟩, false⟩
        ⟨fun _ => "c", fun _ => "nm", true, some ⟨"c"⟩, some [1], true, none⟩
        "u" "/out" (fun q => if q = "/cr/shub/c/nm" then some [7] else none)).trace =
      [Event.resolve,
       Event.cacheCheck ((⟨false, "/cr"⟩ : Handle).ShubImage "c" "nm")] ++
        (copyStep true none ((⟨false, "/cr"⟩ : Handle).ShubImage "c" "nm") "/out"
          (fun q => if q = "/cr/shub/c/nm" then some [7] else none)).2.2 :=
  (c6_cache_hit_no_fetch.1 ⟨⟨false, "/cr"⟩, false⟩
    ⟨fun _ => "c", fun _ => "nm", true, some ⟨"c"⟩, some [1], true, none⟩
    "u" "/out" (fun q => if q = "/cr/shub/c/nm" then some [7] else none) ⟨"c"⟩
    rfl rfl rfl (by decide)).1

/-- C7: backend identity derivation — the Hub pull keys its cache entry by
the manifest's commit field and the logical image name derived from the
reference; the artifact-registry pull keys its entry by the resolved digest
and the logical image name derived from the reference prefixed with
`"oras:"` (a string always distinct from the unprefixed reference). -/
theorem c7_identity_derivation :
    (∀ (s : Shub) (e : ShubEnv) (fromURI dest : Path) (fs : FS) (m : Manifest),
      e.parseOk = true → e.manifest = some m → s.cache.IsDisabled = false →
      Event.cacheCheck (cachePath s.cache "shub" m.commit (e.getName fromURI)) ∈
        (Shub.Pull s e fromURI dest fs).trace) ∧
    (∀ (o : Oras) (e : OrasEnv) (fromURI dest : Path) (fs : FS) (sum : String),
      e.sha = some sum →
      Event.cacheCheck (cachePath o.cache "oras" sum (e.getName ("oras:" ++ fromURI))) ∈
        (Oras.Pull o e fromURI dest fs).trace) ∧
    (∀ fromURI : String, "oras:" ++ fromURI ≠ fromURI) := by
  refine ⟨?_, ?_, ?_⟩
  · intro s e fromURI dest fs m hp hm hd
    have hpf : ¬ (e.parseOk = false) := by simp [hp]
    have hdf : ¬ (s.cache.IsDisabled = true) := by simp [hd]
    unfold Shub.Pull
    rw [if_neg hpf, hm]
    dsimp only
    rw [if_neg hdf]
    rcases hce : s.cache.ShubImageExists e.hash fs m.commit (e.getName fromURI)
      with ⟨ex, err⟩
    cases err with
    | some ce => simp [Handle.ShubImage]
    | none =>
      dsimp only
      by_cases hex : ex = false
      · rw [if_pos hex]
        cases hdc : e.downloadContent with
        | none => simp [Handle.ShubImage]
        | some b =>
          dsimp only
          refine List.mem_append_left _ ?_
          simp [Handle.ShubImage]
      · rw [if_neg hex]
        refine List.mem_append_left _ ?_
        simp [Handle.ShubImage]
  · intro o e fromURI dest fs sum hs
    unfold Oras.Pull
    rw [hs]
    dsimp only
    rcases hce : o.cache.OrasImageExists e.hash fs sum (e.getName ("oras:" ++ fromURI))
      with ⟨ex, err⟩
    cases err with
    | some ce =>
      cases ce
      dsimp only
      by_cases hr : e.removeOk = true
      · rw [if_pos hr]
        obtain ⟨rest, hrest⟩ := orasPullTail_trace_append e ex
          (o.cache.OrasImage sum (e.getName ("oras:" ++ fromURI))) dest sum
          (fs.erase (o.cache.OrasImage sum (e.getName ("oras:" ++ fromURI))))
          [Event.resolve,
           Event.cacheCheck (o.cache.OrasImage sum (e.getName ("oras:" ++ fromURI))),
           Event.removeFile (o.cache.OrasImage sum (e.getName ("oras:" ++ fromURI)))]
        rw [hrest]
        exact List.mem_append_left _ (by simp [Handle.OrasImage])
      · rw [if_neg hr]
        simp [Handle.OrasImage]
    | none =>
      dsimp only
      obtain ⟨rest, hrest⟩ := orasPullTail_trace_append e ex
        (o.cache.OrasImage sum (e.getName ("oras:" ++ fromURI))) dest sum fs
        [Event.resolve,
         Event.cacheCheck (o.cache.OrasImage sum (e.getName ("oras:" ++ fromURI)))]
      rw [hrest]
      exact List.mem_append_left _ (by simp [Handle.OrasImage])
  · intro fromURI h
    have hlen := congrArg String.length h
    rw [String.length_append] at hlen
    have h5 : ("oras:").length = 5 := rfl
    omega

/-- C7 witness: concrete pulls consult exactly the derived cache paths, and
the prefixed Oras name-derivation input differs from the reference. -/
theorem c7_witness :
    Event.cacheCheck (cachePath ⟨false, "/cr"⟩ "shub" "c" "nm") ∈
      (Shub.Pull ⟨⟨false, "/cr"⟩, false⟩
        ⟨fun _ => "c", fun _ => "nm", true, some ⟨"c"⟩, some [1], true, none⟩
        "u" "/out" (fun _ => none)).trace ∧
    Event.cacheCheck (cachePath ⟨false, "/cr"⟩ "oras" "s" "nm") ∈
      (Oras.Pull ⟨⟨false, "/cr"⟩⟩
        ⟨fun _ => "s", fun _ => "nm", some "s", some [1], true, true, none⟩
        "ref" "/out" (fun _ => none)).trace ∧
    "oras:" ++ "ref" ≠ "ref" :=
  ⟨c7_identity_derivation.1 ⟨⟨false, "/cr"⟩, false⟩
      ⟨fun _ => "c", fun _ => "nm", true, some ⟨"c"⟩, some [1], true, none⟩
      "u" "/out" (fun _ => none) ⟨"c"⟩ rfl rfl rfl,
   c7_identity_derivation.2.1 ⟨⟨false, "/cr"⟩⟩
      ⟨fun _ => "s", fun _ => "nm", some "s", some [1], true, true, none⟩
      "ref" "/out" (fun _ => none) "s" rfl,
   c7_identity_derivation.2.2 "ref"⟩

/-- C8: the destination is opened `O_CREATE|O_TRUNC|O_WRONLY` with
permission `0o755` — execution bits set — truncating any existing file to
empty; every file the copy stage opens is closed on every exit path (the
three possible trace shapes each balance opens and closes); and the
transfer is the chunked streaming `io.Copy`: it preserves the content
exactly while each read is bounded by the 32 KiB buffer, never a whole-file
read, and the copy stage stores exactly the source content at the
destination. -/
theorem c8_finalizer_contract :
    (openOutputImageFlags.create = true ∧ openOutputImageFlags.trunc = true ∧
     openOutputImageFlags.wronly = true ∧ openOutputImageFlags.perm = 0o755 ∧
     Nat.land openOutputImageFlags.perm 0o111 ≠ 0 ∧
     ∀ (fs : FS) (p : Path), applyOpen openOutputImageFlags p fs p = some []) ∧
    (∀ (dOk : Bool) (cf : Option Nat) (src dst : Path) (fs : FS),
      (copyStep dOk cf src dst fs).2.2 = [] ∨
      (copyStep dOk cf src dst fs).2.2 = [Event.openDest dst, Event.closeFile dst] ∨
      (copyStep dOk cf src dst fs).2.2 =
        [Event.openDest dst, Event.openSrc src, Event.copyTo src dst,
         Event.closeFile src, Event.closeFile dst]) ∧
    (∀ b : Bytes, ioCopy b = b) ∧
    (∀ b : Bytes, ∀ r ∈ ioCopyReads b, r ≤ bufSize) ∧
    (∀ (src dst : Path) (fs : FS) (content : Bytes),
      fs src = some content → src ≠ dst →
      (copyStep true none src dst fs).2.1 dst = some content) := by
  refine ⟨⟨rfl, rfl, rfl, rfl, by decide, ?_⟩, copyStep_trace_shapes, ioCopy_eq,
    ioCopyReads_le, ?_⟩
  · intro fs p
    unfold applyOpen openOutputImageFlags
    simp
  · intro src dst fs content hsrc hne
    unfold copyStep
    rw [if_pos rfl]
    dsimp only
    have h1 : applyOpen openOutputImageFlags dst fs src = some content := by
      unfold applyOpen
      rw [if_neg hne]
      exact hsrc
    rw [h1]
    dsimp only
    show FS.set _ _ _ _ = _
    simp [FS.set, ioCopy_eq]

/-- C8 witness: a concrete read bound discharged through the theorem, and a
concrete copy stage placing the cache content at the destination. -/
theorem c8_witness :
    (1 ∈ ioCopyReads [5] → 1 ≤ bufSize) ∧
    (copyStep true none "/a" "/b"
      (fun q => if q = "/a" then some [5] else none)).2.1 "/b" = some [5] :=
  ⟨fun h => c8_finalizer_contract.2.2.2.1 [5] 1 h,
   c8_finalizer_contract.2.2.2.2 "/a" "/b"
     (fun q => if q = "/a" then some [5] else none) [5] (by decide) (by decide)⟩

end Singularity
